import Mathlib

/-!
Verification of the rdiff repository: a shallow embedding of
`src/rollsum.rs` (rolling window checksum over wrapping 16-bit
arithmetic) and `src/mksum.rs` (signature generation pipeline),
together with proofs of the specified properties.

Machine integers are modelled as `Nat` with explicit reduction
`% 65536` (u16 wrapping) and `% 4294967296` (u32 wrapping).  A u8
byte is a `Nat`; where a claim is about bytes, theorems carry an
explicit `< 256` bound.
-/

/-- The state of `rollsum.rs`'s `Window`: three wrapping u16 fields.
Every operation below reduces each field modulo 2^16, so fields of
reachable states are `< 65536`. -/
@[ext]
structure Window where
  count : Nat
  s1 : Nat
  s2 : Nat
deriving DecidableEq

/-- `Window::new` / `Window::default`: the zero state. -/
def Window.new : Window := ⟨0, 0, 0⟩

/-- `CHAR_OFFSET` from rollsum.rs. -/
def CHAR_OFFSET : Nat := 31

/-- `Rollsum::digest`: `(s2 as u32) << 16 | (s1 as u32)`.  For a
reachable state `s1 < 2^16`, so the bit-or is addition. -/
def Window.digest (w : Window) : Nat := w.s2 * 65536 + w.s1

/-- `Rollsum::roll_in` for `Window`:
`s1 += CHAR_OFFSET + c; s2 += s1; count += 1`, wrapping u16. -/
def Window.roll_in (w : Window) (c : Nat) : Window :=
  let s1 := (w.s1 + (31 + c) % 65536) % 65536
  let s2 := (w.s2 + s1) % 65536
  { count := (w.count + 1) % 65536, s1 := s1, s2 := s2 }

/-- `Rollsum::roll_out` for `Window`:
`s1 -= c + CHAR_OFFSET; s2 -= count * (c + CHAR_OFFSET); count -= 1`,
wrapping u16 (`a - b` is `a + (2^16 - b mod 2^16) mod 2^16`). -/
def Window.roll_out (w : Window) (c : Nat) : Window :=
  let x := (c + 31) % 65536
  let s1 := (w.s1 + (65536 - x)) % 65536
  let s2 := (w.s2 + (65536 - w.count * x % 65536)) % 65536
  { count := (w.count + 65535) % 65536, s1 := s1, s2 := s2 }

/-- `Rollsum::rotate` for `Window`:
`s1 += c_in - c_out; s2 += s1 - count * (c_out + CHAR_OFFSET)`,
wrapping u16; `count` is untouched. -/
def Window.rotate (w : Window) (cOut cIn : Nat) : Window :=
  let s1 := (w.s1 + (cIn + (65536 - cOut % 65536)) % 65536) % 65536
  let s2 := (w.s2 + (s1 + (65536 - w.count * ((cOut + 31) % 65536) % 65536)) % 65536) % 65536
  { count := w.count, s1 := s1, s2 := s2 }

/-- One iteration of the `for c in buf` loop in `Rollsum::update`:
`s1 += c; s2 += s1` on the local accumulator pair, wrapping u16. -/
def rollStep (p : Nat × Nat) (c : Nat) : Nat × Nat :=
  let s1 := (p.1 + c) % 65536
  (s1, (p.2 + s1) % 65536)

/-- `Rollsum::update` for `Window`: one pass accumulating the bytes
into local `s1, s2` starting from the current state, then the offset
correction `s1 += ll * CHAR_OFFSET`, `s2 += trilen * CHAR_OFFSET`,
`count += ll`, where `ll = buf.len() as u16` and
`trilen = ((len * (len + 1)) / 2) as u16` computed in wrapping u32
arithmetic on `len = buf.len() as u32`. -/
def Window.update (w : Window) (buf : List Nat) : Window :=
  let p := buf.foldl rollStep (w.s1, w.s2)
  let len := buf.length % 4294967296
  let ll := buf.length % 65536
  let trilen := len * ((len + 1) % 4294967296) % 4294967296 / 2 % 65536
  { count := (w.count + ll) % 65536,
    s1 := (p.1 + ll * 31 % 65536) % 65536,
    s2 := (p.2 + trilen * 31 % 65536) % 65536 }

/-! ### Mathematical shapes used to characterize the checksum -/

/-- Exact triangular number `n * (n+1) / 2`. -/
def tri (n : Nat) : Nat := n * (n + 1) / 2

/-- Sum of the prefix sums of a list: for `[b1, ..., bk]` this is
`Σ_i (k + 1 - i) * b_i` (the oldest byte weighted highest). -/
def sum2 : List Nat → Nat
  | [] => 0
  | c :: t => (t.length + 1) * c + sum2 t

/-- The whole-buffer state over window contents `l` from a fresh zero
state: the closed form of `Window.new.update l` (proved below). -/
def specW (l : List Nat) : Window :=
  ⟨l.length % 65536, (l.sum + l.length * 31) % 65536,
    (sum2 l + tri l.length * 31) % 65536⟩

/-- One sliding-window operation: roll a byte in at the tail, roll the
current oldest byte out at the head, or rotate (oldest out, new byte
in at the tail). -/
inductive Op where
  | rin : Nat → Op
  | rout : Op
  | rot : Nat → Op
deriving DecidableEq

/-- Apply one operation to the pair of a `Window` state and the ghost
window contents.  `rout`/`rot` pass the current oldest byte (the list
head) to `roll_out`/`rotate`, which is exactly the well-formed FIFO
discipline the spec demands of callers. -/
def applyOp : Window × List Nat → Op → Window × List Nat
  | (w, l), .rin c => (w.roll_in c, l ++ [c])
  | (w, l), .rout => (w.roll_out (l.headD 0), l.tail)
  | (w, l), .rot c => (w.rotate (l.headD 0) c, l.tail ++ [c])

/-- Run a sequence of sliding-window operations. -/
def runOps (p : Window × List Nat) (ops : List Op) : Window × List Nat :=
  ops.foldl applyOp p

/-- Well-formedness of an operation sequence against window contents:
every byte rolled in is a u8, and `rout`/`rot` are only applied to a
nonempty window. -/
def wfOpsB : List Nat → List Op → Bool
  | _, [] => true
  | l, .rin c :: ops => decide (c < 256) && wfOpsB (l ++ [c]) ops
  | l, .rout :: ops => !l.isEmpty && wfOpsB l.tail ops
  | l, .rot c :: ops => !l.isEmpty && decide (c < 256) && wfOpsB (l.tail ++ [c]) ops

/-! ### Shallow embedding of `mksum.rs` -/

/-- `SignatureFormat::Blake2Sig` as its u32 discriminant value. -/
def Blake2Sig : Nat := 0x72730137

/-- `RS_MAX_STRONG_SUM_LENGTH` from mksum.rs. -/
def RS_MAX_STRONG_SUM_LENGTH : Nat := 32

/-- `SignatureOptions` from mksum.rs; `magic` is the u32 value of the
format tag. -/
structure SignatureOptions where
  magic : Nat
  block_len : Nat
  strong_len : Nat
deriving DecidableEq

/-- Modelled from the spec: `DEFAULT_BLOCK_LEN` lives in the crate
root, which is not among the provided sources; the spec fixes the
default block length at 2048 bytes, and the mksum.rs test asserts
`options.block_len == 2 << 10`. -/
def DEFAULT_BLOCK_LEN : Nat := 2048

/-- `SignatureOptions::default()`. -/
def SignatureOptions.default : SignatureOptions :=
  ⟨Blake2Sig, DEFAULT_BLOCK_LEN, RS_MAX_STRONG_SUM_LENGTH⟩

/-- `write_u32be`: the four big-endian bytes of a u32 value. -/
def u32be (a : Nat) : List Nat :=
  [a / 16777216 % 256, a / 65536 % 256, a / 256 % 256, a % 256]

/-- Modelled from the spec: the input stream collaborator exposes
"read up to N bytes, return count read, 0 signals end-of-stream", and
any read call may fail with an I/O error.  A script lists the outcome
of successive `read` calls: an error code, or a chunk of bytes the
source currently offers (a call hands out at most the requested
count and the model keeps the rest of the chunk for the next call; an
empty chunk signals end-of-stream, as does an exhausted script). -/
abbrev Script := List (Except Nat (List Nat))

/-- Fuel bound for the reading loops: one unit per script entry plus
one per byte offered. -/
def scriptMeasure (s : Script) : Nat :=
  (s.map fun r => match r with | .ok c => c.length + 1 | .error _ => 1).sum

/-- One call to `Read::read` with `space` free bytes in the buffer. -/
def readOnce (space : Nat) : Script → Except Nat (List Nat × Script)
  | [] => .ok ([], [])
  | .error e :: _ => .error e
  | .ok c :: rest =>
      if c.length ≤ space then .ok (c, rest)
      else .ok (c.take space, .ok (c.drop space) :: rest)

/-- The loop body of `fill_buffer`, fuelled: keep reading until the
buffer is full or a read returns zero bytes; returns the bytes
obtained and the remaining input.  The wrapper always supplies enough
fuel, since every continuing read consumes script measure. -/
def fillAux : Nat → Nat → Script → Except Nat (List Nat × Script)
  | 0, _, s => .ok ([], s)
  | fuel + 1, space, s =>
    if space = 0 then .ok ([], s)
    else
      match readOnce space s with
      | .error e => .error e
      | .ok (got, s') =>
        if got.isEmpty then .ok ([], s')
        else
          match fillAux fuel (space - got.length) s' with
          | .error e => .error e
          | .ok (more, s'') => .ok (got ++ more, s'')

/-- `fill_buffer(inf, buf)` on a buffer with `space` free bytes. -/
def fill_buffer (space : Nat) (s : Script) : Except Nat (List Nat × Script) :=
  fillAux (scriptMeasure s + 1) space s

/-- Modelled from the spec: the output collaborator exposes "write
exact bytes, fail atomically on error".  `out` is the bytes
successfully written so far; `wIdx` counts write calls. -/
structure OutState where
  out : List Nat
  wIdx : Nat
deriving DecidableEq

/-- One write call: fails with the scripted error of this call index,
or appends all the bytes. -/
def writeB (failFn : Nat → Option Nat) (st : OutState) (bs : List Nat) :
    Except Nat OutState :=
  match failFn st.wIdx with
  | some e => .error e
  | none => .ok ⟨st.out ++ bs, st.wIdx + 1⟩

/-- Failure outcome of a `generate_signature` run: a propagated I/O
error code, or the Rust panic raised by the out-of-bounds slice
`&d[..strong_len]` on a 32-byte array when `strong_len > 32`. -/
inductive GenErr where
  | ioErr : Nat → GenErr
  | panicked : GenErr
deriving DecidableEq

/-- The record-emission loop of `generate_signature`, fuelled by the
script measure.  `H` models the opaque strong hash collaborator
(`Blake2bVar` with 32-byte output).  Returns the remaining input
script, the output state, and `none` on success or the failure
outcome.  Per block: a fresh zero `Window` is updated with the whole
block and its digest written big-endian, then the first `strong_len`
bytes of the 32-byte strong digest are written; a short block ends
the loop after its record, a zero-byte read ends it with no record. -/
def sigLoop (H : List Nat → List Nat) (failFn : Nat → Option Nat)
    (blockLen strongLen : Nat) :
    Nat → Script → OutState → Script × OutState × Option GenErr
  | 0, s, st => (s, st, none)
  | fuel + 1, s, st =>
    match fill_buffer blockLen s with
    | .error e => (s, st, some (.ioErr e))
    | .ok (b, s') =>
      if b.isEmpty then (s', st, none)
      else
        match writeB failFn st (u32be (Window.new.update b).digest) with
        | .error e => (s', st, some (.ioErr e))
        | .ok st1 =>
          if 32 < strongLen then (s', st1, some .panicked)
          else
            match writeB failFn st1 ((H b).take strongLen) with
            | .error e => (s', st1, some (.ioErr e))
            | .ok st2 =>
              if b.length < blockLen then (s', st2, none)
              else sigLoop H failFn blockLen strongLen fuel s' st2

/-- `generate_signature(basis, options, sig)` with the `BufWriter`
of mksum.rs:69 treated as transparent: writes the three big-endian
header fields, then loops emitting one record per block read from
the input.  Each code-level write goes straight to the sink, which
is observationally equivalent to the real pipeline exactly when the
sink never fails (every buffered byte then reaches it, in order, by
the drop-time flush); `generate_signature_buffered` below models the
buffer explicitly for failure visibility. -/
def generate_signature (H : List Nat → List Nat) (failFn : Nat → Option Nat)
    (options : SignatureOptions) (s : Script) :
    Script × OutState × Option GenErr :=
  match writeB failFn ⟨[], 0⟩ (u32be options.magic) with
  | .error e => (s, ⟨[], 0⟩, some (.ioErr e))
  | .ok st1 =>
    match writeB failFn st1 (u32be options.block_len) with
    | .error e => (s, st1, some (.ioErr e))
    | .ok st2 =>
      match writeB failFn st2 (u32be options.strong_len) with
      | .error e => (s, st2, some (.ioErr e))
      | .ok st3 =>
        sigLoop H failFn options.block_len options.strong_len
          (scriptMeasure s + 1) s st3

/-- The state of the `BufWriter` created at mksum.rs:69 around the
caller's sink (modelled from the standard library's documented
behaviour): `buf` holds the bytes accepted but not yet written to
the sink, `sink` is the underlying output collaborator state. -/
structure BufState where
  buf : List Nat
  sink : OutState
deriving DecidableEq

/-- `BufWriter`'s default buffer capacity, 8 KiB. -/
def BUF_CAPACITY : Nat := 8192

/-- `BufWriter::flush_buf`: write the whole buffered content to the
sink in one pass (no write call at all when the buffer is empty).
On failure the buffer and the sink are left as they were. -/
def flushBuf (failFn : Nat → Option Nat) (b : BufState) : Except Nat BufState :=
  if b.buf.isEmpty then .ok b
  else
    match writeB failFn b.sink b.buf with
    | .error e => .error e
    | .ok st' => .ok ⟨[], st'⟩

/-- First stage of `BufWriter::write`: flush the buffer when the
incoming `n` bytes would overflow it.  Returns the writer state as
of the early return plus the surfaced error, if any. -/
def bufFlushIfNeeded (failFn : Nat → Option Nat) (b : BufState) (n : Nat) :
    BufState × Option Nat :=
  if BUF_CAPACITY < b.buf.length + n then
    match flushBuf failFn b with
    | .error e => (b, some e)
    | .ok b1 => (b1, none)
  else (b, none)

/-- `BufWriter::write`: flush first if the data would overflow the
buffer, then write oversized data straight to the sink, otherwise
append it to the buffer. -/
def bufWrite (failFn : Nat → Option Nat) (b : BufState) (data : List Nat) :
    BufState × Option Nat :=
  match bufFlushIfNeeded failFn b data.length with
  | (b1, some e) => (b1, some e)
  | (b1, none) =>
    if BUF_CAPACITY ≤ data.length then
      match writeB failFn b1.sink data with
      | .error e => (b1, some e)
      | .ok st' => (⟨b1.buf, st'⟩, none)
    else (⟨b1.buf ++ data, b1.sink⟩, none)

/-- `BufWriter`'s `Drop`: a final `flush_buf` whose error is
discarded. -/
def dropFlush (failFn : Nat → Option Nat) (b : BufState) : OutState :=
  match flushBuf failFn b with
  | .error _ => b.sink
  | .ok b' => b'.sink

/-- The record-emission loop of `generate_signature` against the
buffered writer: same structure as `sigLoop`, with each code-level
write going through the `BufWriter`. -/
def sigLoopBuf (H : List Nat → List Nat) (failFn : Nat → Option Nat)
    (blockLen strongLen : Nat) :
    Nat → Script → BufState → Script × BufState × Option GenErr
  | 0, s, b => (s, b, none)
  | fuel + 1, s, b =>
    match fill_buffer blockLen s with
    | .error e => (s, b, some (.ioErr e))
    | .ok (blk, s') =>
      if blk.isEmpty then (s', b, none)
      else
        match bufWrite failFn b (u32be (Window.new.update blk).digest) with
        | (b1, some e) => (s', b1, some (.ioErr e))
        | (b1, none) =>
          if 32 < strongLen then (s', b1, some .panicked)
          else
            match bufWrite failFn b1 ((H blk).take strongLen) with
            | (b2, some e) => (s', b2, some (.ioErr e))
            | (b2, none) =>
              if blk.length < blockLen then (s', b2, none)
              else sigLoopBuf H failFn blockLen strongLen fuel s' b2

/-- `generate_signature(basis, options, sig)` with the `BufWriter` of
mksum.rs:69 made explicit: header and record writes go through the
buffer, and on every exit path — success, propagated I/O error, the
slice panic — the wrapper is dropped, performing a final flush whose
own error is discarded, exactly as `BufWriter`'s `Drop` does. -/
def generate_signature_buffered (H : List Nat → List Nat) (failFn : Nat → Option Nat)
    (options : SignatureOptions) (s : Script) :
    Script × OutState × Option GenErr :=
  match bufWrite failFn ⟨[], ⟨[], 0⟩⟩ (u32be options.magic) with
  | (b1, some e) => (s, dropFlush failFn b1, some (GenErr.ioErr e))
  | (b1, none) =>
    match bufWrite failFn b1 (u32be options.block_len) with
    | (b2, some e) => (s, dropFlush failFn b2, some (GenErr.ioErr e))
    | (b2, none) =>
      match bufWrite failFn b2 (u32be options.strong_len) with
      | (b3, some e) => (s, dropFlush failFn b3, some (GenErr.ioErr e))
      | (b3, none) =>
        match sigLoopBuf H failFn options.block_len options.strong_len
            (scriptMeasure s + 1) s b3 with
        | (s'', b'', err) => (s'', dropFlush failFn b'', err)

theorem tri_succ (n : Nat) : tri (n + 1) = tri n + (n + 1) := by
  have h1 : (n + 1) * (n + 1 + 1) = n * (n + 1) + 2 * (n + 1) := by ring
  have h2 : n * (n + 1) % 2 = 0 := by
    rcases Nat.even_mul_succ_self n with ⟨k, hk⟩
    omega
  simp only [tri]
  omega

theorem tri_add (a b : Nat) : tri (a + b) = tri a + tri b + a * b := by
  have h1 : (a + b) * (a + b + 1) = a * (a + 1) + b * (b + 1) + 2 * (a * b) := by ring
  have h2 : a * (a + 1) % 2 = 0 := by
    rcases Nat.even_mul_succ_self a with ⟨k, hk⟩
    omega
  have h3 : b * (b + 1) % 2 = 0 := by
    rcases Nat.even_mul_succ_self b with ⟨k, hk⟩
    omega
  simp only [tri]
  omega

theorem sum2_append (l₁ l₂ : List Nat) :
    sum2 (l₁ ++ l₂) = sum2 l₁ + l₂.length * l₁.sum + sum2 l₂ := by
  induction l₁ with
  | nil => simp [sum2]
  | cons c t ih =>
    show sum2 (c :: (t ++ l₂)) = sum2 (c :: t) + l₂.length * (c :: t).sum + sum2 l₂
    simp only [sum2, List.length_append, List.sum_cons, ih]
    ring

/-- Reducing one factor of a product modulo `n` does not change the
product modulo `n`. -/
theorem mul_mod_red (k a n : Nat) : k * (a % n) % n = k * a % n := by
  conv_lhs => rw [Nat.mul_mod]
  conv_rhs => rw [Nat.mul_mod]
  rw [Nat.mod_mod_of_dvd a dvd_rfl]

/-- Characterization of the accumulator loop of `update`: starting
from any pair, the final first component is the start plus the byte
sum, and the final second component picks up one copy of the running
first component per byte (all modulo 2^16). -/
theorem foldl_rollStep_char (buf : List Nat) : ∀ a b : Nat,
    (buf.foldl rollStep (a, b)).1 % 65536 = (a + buf.sum) % 65536 ∧
    (buf.foldl rollStep (a, b)).2 % 65536 = (b + buf.length * a + sum2 buf) % 65536 := by
  induction buf with
  | nil => intro a b; simp [sum2]
  | cons c t ih =>
    intro a b
    have step : rollStep (a, b) c = ((a + c) % 65536, (b + (a + c) % 65536) % 65536) := rfl
    rw [List.foldl_cons, step]
    obtain ⟨h1, h2⟩ := ih ((a + c) % 65536) ((b + (a + c) % 65536) % 65536)
    constructor
    · rw [h1]
      simp only [List.sum_cons]
      omega
    · rw [h2]
      simp only [sum2, List.length_cons, List.sum_cons]
      have hm : t.length * ((a + c) % 65536) % 65536 = t.length * (a + c) % 65536 :=
        mul_mod_red t.length (a + c) 65536
      have he1 : t.length * (a + c) = t.length * a + t.length * c := by ring
      have he2 : (t.length + 1) * a = t.length * a + a := by ring
      have he3 : (t.length + 1) * c = t.length * c + c := by ring
      omega

/-- The `trilen` computed by `update` in truncating u32 arithmetic is,
modulo 2^16, the exact triangular number of the untruncated length. -/
theorem trilen_char (n : Nat) :
    n % 4294967296 * ((n % 4294967296 + 1) % 4294967296) % 4294967296 / 2 % 65536 =
      tri n % 65536 := by
  have e1 : (n % 4294967296 + 1) % 4294967296 = (n + 1) % 4294967296 := by omega
  have key : n % 4294967296 * ((n + 1) % 4294967296) % 4294967296 = n * (n + 1) % 4294967296 :=
    (Nat.mul_mod n (n + 1) 4294967296).symm
  rw [e1, key]
  have h2 : n * (n + 1) % 2 = 0 := by
    rcases Nat.even_mul_succ_self n with ⟨k, hk⟩
    omega
  simp only [tri]
  omega

/-- Closed form of `Window.update`: it adds the byte sum plus
`len * 31` into `s1`, the prefix-sum total plus one copy of the old
`s1` per byte plus `tri len * 31` into `s2`, and `len` into `count`,
everything modulo 2^16 and with `tri` the exact triangular number. -/
theorem update_char (w : Window) (buf : List Nat) :
    w.update buf = ⟨(w.count + buf.length) % 65536,
      (w.s1 + buf.sum + buf.length * 31) % 65536,
      (w.s2 + buf.length * w.s1 + sum2 buf + tri buf.length * 31) % 65536⟩ := by
  obtain ⟨h1, h2⟩ := foldl_rollStep_char buf w.s1 w.s2
  have h3 := trilen_char buf.length
  refine Window.ext ?_ ?_ ?_ <;> simp only [Window.update] <;> omega

/-- Reducing the other factor of a product modulo `n`. -/
theorem mul_mod_red' (a b n : Nat) : a % n * b % n = a * b % n := by
  rw [Nat.mul_comm (a % n) b, mul_mod_red, Nat.mul_comm]

/-- `Window.update` from the zero state computes exactly the closed
form `specW`. -/
theorem update_zero (l : List Nat) : Window.new.update l = specW l := by
  rw [update_char]
  refine Window.ext ?_ ?_ ?_ <;> simp only [Window.new, specW] <;> omega

/-- Rolling one byte into the whole-buffer state of window `l` gives
the whole-buffer state of `l ++ [c]`. -/
theorem specW_roll_in (l : List Nat) (c : Nat) :
    (specW l).roll_in c = specW (l ++ [c]) := by
  have hs2 : sum2 (l ++ [c]) = sum2 l + l.sum + c := by
    rw [sum2_append]; simp [sum2]
  have ht : tri (l.length + 1) = tri l.length + (l.length + 1) := tri_succ _
  refine Window.ext ?_ ?_ ?_ <;>
    simp only [Window.roll_in, specW, List.length_append, List.sum_append,
      List.length_cons, List.length_nil, List.sum_cons, List.sum_nil, zero_add,
      add_zero, hs2, ht] <;> omega

/-- Rolling the oldest byte out of the whole-buffer state of `h :: t`
gives the whole-buffer state of `t`. -/
theorem specW_roll_out (h : Nat) (t : List Nat) :
    (specW (h :: t)).roll_out h = specW t := by
  have ht : tri (t.length + 1) = tri t.length + (t.length + 1) := tri_succ _
  have hm : (t.length + 1) % 65536 * ((h + 31) % 65536) % 65536 =
      (t.length + 1) * (h + 31) % 65536 := by
    rw [mul_mod_red, mul_mod_red']
  have hp : (t.length + 1) * (h + 31) = (t.length + 1) * h + (t.length + 1) * 31 := by
    ring
  refine Window.ext ?_ ?_ ?_ <;>
    simp only [Window.roll_out, specW, sum2, List.length_cons, List.sum_cons, ht] <;> omega

/-- Rotating the oldest byte of `h :: t` out while rolling `c` in on
the whole-buffer state gives the whole-buffer state of `t ++ [c]`. -/
theorem specW_rotate (h c : Nat) (t : List Nat) :
    (specW (h :: t)).rotate h c = specW (t ++ [c]) := by
  have hs2 : sum2 (t ++ [c]) = sum2 t + t.sum + c := by
    rw [sum2_append]; simp [sum2]
  have hm : (t.length + 1) % 65536 * ((h + 31) % 65536) % 65536 =
      (t.length + 1) * (h + 31) % 65536 := by
    rw [mul_mod_red, mul_mod_red']
  have hp : (t.length + 1) * (h + 31) = (t.length + 1) * h + (t.length + 1) * 31 := by
    ring
  refine Window.ext ?_ ?_ ?_ <;>
    simp only [Window.rotate, specW, sum2, List.length_cons, List.length_nil,
      List.sum_cons, List.sum_nil, List.length_append, List.sum_append, zero_add,
      add_zero, hs2] <;> omega

/-- Invariant: a well-formed run started on the whole-buffer state of
`l` ends on the whole-buffer state of the final window contents. -/
theorem runOps_spec (ops : List Op) : ∀ l : List Nat, wfOpsB l ops = true →
    (runOps (specW l, l) ops).1 = specW (runOps (specW l, l) ops).2 := by
  induction ops with
  | nil => intro l _; rfl
  | cons op ops ih =>
    intro l hwf
    cases op with
    | rin c =>
      have hstep : runOps (specW l, l) (Op.rin c :: ops) =
          runOps (specW (l ++ [c]), l ++ [c]) ops := by
        simp [runOps, applyOp, specW_roll_in]
      rw [hstep]
      simp only [wfOpsB, Bool.and_eq_true, decide_eq_true_eq] at hwf
      exact ih (l ++ [c]) hwf.2
    | rout =>
      cases l with
      | nil => simp [wfOpsB, List.isEmpty] at hwf
      | cons h t =>
        have hstep : runOps (specW (h :: t), h :: t) (Op.rout :: ops) =
            runOps (specW t, t) ops := by
          simp [runOps, applyOp, specW_roll_out]
        rw [hstep]
        simp only [wfOpsB, Bool.and_eq_true] at hwf
        exact ih t hwf.2
    | rot c =>
      cases l with
      | nil => simp [wfOpsB, List.isEmpty] at hwf
      | cons h t =>
        have hstep : runOps (specW (h :: t), h :: t) (Op.rot c :: ops) =
            runOps (specW (t ++ [c]), t ++ [c]) ops := by
          simp [runOps, applyOp, specW_rotate]
        rw [hstep]
        simp only [wfOpsB, Bool.and_eq_true, decide_eq_true_eq] at hwf
        exact ih (t ++ [c]) hwf.2

/-- On any u16 state, `rotate c_out c_in` computes exactly the same
final state as `roll_out c_out` followed by `roll_in c_in`: the count
decrement and increment cancel (also through the wrap at 0), and both
paths add `c_in - c_out` to `s1` and `s1_new - count * (c_out + 31)`
to `s2` modulo 2^16. -/
theorem rotate_eq_roll_out_roll_in (w : Window) (hn : w.count < 65536) (cOut cIn : Nat) :
    w.rotate cOut cIn = (w.roll_out cOut).roll_in cIn := by
  refine Window.ext ?_ ?_ ?_ <;>
    simp only [Window.rotate, Window.roll_out, Window.roll_in] <;> omega

/-- C1: starting from the zero state, after any well-formed sequence
of roll_in/roll_out/rotate operations applied in FIFO order (roll_out
and rotate always removing the current oldest byte), the state equals
the state a single whole-buffer `update` over the final window
contents from a fresh zero state produces, and the digests agree. -/
theorem C1_rolling_window_invariant (ops : List Op) (hwf : wfOpsB [] ops = true) :
    (runOps (Window.new, []) ops).1 =
      Window.new.update (runOps (Window.new, []) ops).2 ∧
    (runOps (Window.new, []) ops).1.digest =
      (Window.new.update (runOps (Window.new, []) ops).2).digest := by
  have hz : (Window.new, ([] : List Nat)) = (specW [], []) := rfl
  have key : (runOps (Window.new, []) ops).1 =
      specW (runOps (Window.new, []) ops).2 := by
    rw [hz]; exact runOps_spec ops [] hwf
  refine ⟨?_, ?_⟩ <;> rw [key, update_zero]

/-- Witness for C1: a concrete well-formed roll_in/rotate/roll_out
sequence satisfying the hypothesis, with the conclusion instantiated. -/
theorem C1_rolling_window_invariant_witness :
    wfOpsB [] [Op.rin 1, Op.rin 2, Op.rot 3, Op.rout, Op.rin 0] = true ∧
    ((runOps (Window.new, []) [Op.rin 1, Op.rin 2, Op.rot 3, Op.rout, Op.rin 0]).1 =
      Window.new.update
        (runOps (Window.new, []) [Op.rin 1, Op.rin 2, Op.rot 3, Op.rout, Op.rin 0]).2 ∧
    (runOps (Window.new, []) [Op.rin 1, Op.rin 2, Op.rot 3, Op.rout, Op.rin 0]).1.digest =
      (Window.new.update
        (runOps (Window.new, []) [Op.rin 1, Op.rin 2, Op.rot 3, Op.rout, Op.rin 0]).2).digest) :=
  ⟨by decide, C1_rolling_window_invariant _ (by decide)⟩

/-- C2: the claim is false.  There is no u16 state and pair of bytes
on which `rotate(c_out, c_in)` and `roll_out(c_out)` followed by
`roll_in(c_in)` yield different resulting states: the two always
produce identical `count`, `s1` and `s2`. -/
theorem C2_counterexample :
    ¬ ∃ (n a b cOut cIn : Nat), n < 65536 ∧ a < 65536 ∧ b < 65536 ∧
      cOut < 256 ∧ cIn < 256 ∧
      (Window.mk n a b).rotate cOut cIn ≠ ((Window.mk n a b).roll_out cOut).roll_in cIn := by
  rintro ⟨n, a, b, cOut, cIn, hn, -, -, -, -, hne⟩
  exact hne (rotate_eq_roll_out_roll_in ⟨n, a, b⟩ hn cOut cIn)

/-- C2 (amended): `rotate(c_out, c_in)` and the sequential pair
`roll_out(c_out)` then `roll_in(c_in)` ARE interchangeable on every
u16 state: the sequential pair's count dips transiently but returns,
and the final states and digests coincide exactly. -/
theorem C2_rotate_equals_roll_out_then_roll_in
    (w : Window) (hn : w.count < 65536) (hs1 : w.s1 < 65536) (hs2 : w.s2 < 65536)
    (cOut cIn : Nat) (ho : cOut < 256) (hi : cIn < 256) :
    w.rotate cOut cIn = (w.roll_out cOut).roll_in cIn ∧
    (w.rotate cOut cIn).digest = ((w.roll_out cOut).roll_in cIn).digest := by
  have h := rotate_eq_roll_out_roll_in w hn cOut cIn
  exact ⟨h, by rw [h]⟩

/-- Witness for C2 (amended) at the state reached by rolling in
`0,1,2,3` (count 4, s1 130, s2 320) with `c_out = 0`, `c_in = 4`. -/
theorem C2_rotate_equals_roll_out_then_roll_in_witness :
    (4 : Nat) < 65536 ∧ (130 : Nat) < 65536 ∧ (320 : Nat) < 65536 ∧
    (0 : Nat) < 256 ∧ (4 : Nat) < 256 ∧
    ((Window.mk 4 130 320).rotate 0 4 = ((Window.mk 4 130 320).roll_out 0).roll_in 4 ∧
    ((Window.mk 4 130 320).rotate 0 4).digest =
      (((Window.mk 4 130 320).roll_out 0).roll_in 4).digest) :=
  ⟨by decide, by decide, by decide, by decide, by decide,
    C2_rotate_equals_roll_out_then_roll_in ⟨4, 130, 320⟩ (by decide) (by decide)
      (by decide) 0 4 (by decide) (by decide)⟩

/-- C3: the claim is false.  From the reachable state after
`roll_in 1` (count 1, s1 32, s2 32), `roll_in 0` followed by
`roll_out 0` does not restore the state: `s2` becomes 33, not 32. -/
theorem C3_counterexample :
    ((Window.new.roll_in 1).roll_in 0).roll_out 0 ≠ Window.new.roll_in 1 := by
  decide

/-- C3 (amended): `roll_in(c)` followed by `roll_out(c)` always
restores `count` and `s1`; it restores `s2` exactly when
`s1 = count * (c + 31) mod 2^16` held in the starting state (as it
does in the zero state), because `roll_out` removes `c` weighted as
the oldest byte while `roll_in` added it as the newest. -/
theorem C3_roll_in_roll_out_inverse
    (w : Window) (hn : w.count < 65536) (hs1 : w.s1 < 65536) (hs2 : w.s2 < 65536)
    (c : Nat) (hc : c < 256) :
    ((w.roll_in c).roll_out c).count = w.count ∧
    ((w.roll_in c).roll_out c).s1 = w.s1 ∧
    (((w.roll_in c).roll_out c).s2 = w.s2 ↔ w.s1 = w.count * (c + 31) % 65536) := by
  have hm : (w.count + 1) % 65536 * ((c + 31) % 65536) % 65536 =
      (w.count + 1) * (c + 31) % 65536 := by rw [mul_mod_red, mul_mod_red']
  have hp : (w.count + 1) * (c + 31) = w.count * (c + 31) + (c + 31) := by ring
  refine ⟨?_, ?_, ?_⟩ <;> simp only [Window.roll_in, Window.roll_out] <;> omega

/-- Witness for C3 (amended) at the zero state with byte 0, where the
side condition holds and the pair is an exact inverse. -/
theorem C3_roll_in_roll_out_inverse_witness :
    (0 : Nat) < 65536 ∧ (0 : Nat) < 256 ∧
    (((Window.new.roll_in 0).roll_out 0).count = Window.new.count ∧
    ((Window.new.roll_in 0).roll_out 0).s1 = Window.new.s1 ∧
    (((Window.new.roll_in 0).roll_out 0).s2 = Window.new.s2 ↔
      Window.new.s1 = Window.new.count * (0 + 31) % 65536)) :=
  ⟨by decide, by decide,
    C3_roll_in_roll_out_inverse Window.new (by decide) (by decide) (by decide) 0 (by decide)⟩

/-- C4: whole-buffer additivity.  For every starting accumulator
state, buffer and split point, one `update` over the whole buffer
yields the same final state — and the same digest — as `update` over
the first `k` bytes followed by `update` over the rest. -/
theorem C4_update_additive (w : Window) (B : List Nat) (k : Nat) (hk : k ≤ B.length) :
    w.update B = (w.update (B.take k)).update (B.drop k) ∧
    (w.update B).digest = ((w.update (B.take k)).update (B.drop k)).digest := by
  have hTl : (B.take k).length = k := by rw [List.length_take]; omega
  have hDl : (B.drop k).length = B.length - k := List.length_drop k B
  have hBl : (B.take k).length + (B.drop k).length = B.length := by omega
  have hsum : (B.take k).sum + (B.drop k).sum = B.sum := by
    rw [← List.sum_append, List.take_append_drop]
  have hs2 : sum2 B =
      sum2 (B.take k) + (B.drop k).length * (B.take k).sum + sum2 (B.drop k) := by
    conv_lhs => rw [← List.take_append_drop k B]
    rw [sum2_append]
  have htri : tri B.length = tri (B.take k).length + tri (B.drop k).length +
      (B.take k).length * (B.drop k).length := by
    rw [← hBl, tri_add]
  have hred : (B.drop k).length *
        ((w.s1 + (B.take k).sum + (B.take k).length * 31) % 65536) % 65536 =
      (B.drop k).length * (w.s1 + (B.take k).sum + (B.take k).length * 31) % 65536 :=
    mul_mod_red _ _ _
  have hexp : (B.drop k).length * (w.s1 + (B.take k).sum + (B.take k).length * 31) =
      (B.drop k).length * w.s1 + (B.drop k).length * (B.take k).sum +
        (B.drop k).length * (B.take k).length * 31 := by ring
  have hBs1 : B.length * w.s1 =
      (B.take k).length * w.s1 + (B.drop k).length * w.s1 := by
    rw [← hBl]; ring
  have hmul : (B.take k).length * (B.drop k).length =
      (B.drop k).length * (B.take k).length := by ring
  have main : w.update B = (w.update (B.take k)).update (B.drop k) := by
    rw [update_char w B, update_char w (B.take k), update_char _ (B.drop k)]
    refine Window.ext ?_ ?_ ?_ <;> dsimp only <;> omega
  exact ⟨main, by rw [main]⟩

/-- Witness for C4 at `B = [1, 2, 3]`, `k = 1`, from the zero state. -/
theorem C4_update_additive_witness :
    (1 : Nat) ≤ ([1, 2, 3] : List Nat).length ∧
    (Window.new.update [1, 2, 3] =
      (Window.new.update ([1, 2, 3].take 1)).update ([1, 2, 3].drop 1) ∧
    (Window.new.update [1, 2, 3]).digest =
      ((Window.new.update ([1, 2, 3].take 1)).update ([1, 2, 3].drop 1)).digest) :=
  ⟨by decide, C4_update_additive Window.new [1, 2, 3] 1 (by decide)⟩

/-- C5: `update` postcondition.  For every state and buffer of length
`n`, `update` adds the byte-wise running sums into `s1` and `s2` (for
`s2`, one copy of the running `s1` per byte, i.e. `n * s1_old` plus
the prefix-sum total of the buffer), then applies the offset
correction `s1 += n * 31`, `s2 += (n * (n + 1) / 2) * 31` with the
triangular number computed as an exact integer, and adds `n` to
`count` — all congruences taken modulo 2^16. -/
theorem C5_update_postcondition (w : Window) (buf : List Nat) :
    w.update buf = ⟨(w.count + buf.length) % 65536,
      (w.s1 + buf.sum + buf.length * 31) % 65536,
      (w.s2 + buf.length * w.s1 + sum2 buf + buf.length * (buf.length + 1) / 2 * 31) % 65536⟩ := by
  have h := update_char w buf
  simpa only [tri] using h

/-- C6: header determinism.  `generate_signature` on an empty input
with default options (magic `Blake2Sig`, block_len 2048, strong_len
32) and a healthy sink succeeds, consumes nothing, and writes exactly
the 12 header bytes `72 73 01 37 | 00 00 08 00 | 00 00 00 20` — zero
records — whatever the strong hash does. -/
theorem C6_header_determinism (H : List Nat → List Nat) :
    generate_signature H (fun _ => none) SignatureOptions.default [] =
      ([], ⟨[0x72, 0x73, 0x01, 0x37, 0x00, 0x00, 0x08, 0x00, 0x00, 0x00, 0x00, 0x20], 3⟩,
        none) := by
  rfl

/-- C9: the code performs no configuration validation.  Evaluated at
the failing input (`strong_len = 33 > 32`, `block_len = 2048`, input
one byte), `generate_signature` writes the 12-byte header and the
4-byte weak digest — 16 bytes of I/O have already happened — and only
then fails with the out-of-bounds slice panic at the record's strong
digest, rather than rejecting the malformed configuration before any
I/O begins. -/
theorem C9_mid_stream_panic (H : List Nat → List Nat) :
    generate_signature H (fun _ => none) ⟨0x72730137, 2048, 33⟩ [Except.ok [0]] =
      ([], ⟨[0x72, 0x73, 0x01, 0x37, 0x00, 0x00, 0x08, 0x00, 0x00, 0x00, 0x00, 0x21,
        0x00, 0x1f, 0x00, 0x1f], 4⟩, some GenErr.panicked) := by
  rfl

/-- C10: with `block_len = 0`, `generate_signature` writes exactly
the 12-byte header, reads nothing from the input (the script is
returned untouched), emits no records and succeeds, for every input
and every strong hash. -/
theorem C10_zero_block_len (H : List Nat → List Nat) (magic strongLen : Nat) (s : Script) :
    generate_signature H (fun _ => none) ⟨magic, 0, strongLen⟩ s =
      (s, ⟨u32be magic ++ u32be 0 ++ u32be strongLen, 3⟩, none) := by
  rfl

/-- A successful write leaves the scripted failure empty at this call
index and appends exactly the given bytes. -/
theorem writeB_ok (failFn : Nat → Option Nat) (st : OutState) (bs : List Nat)
    (st' : OutState) (h : writeB failFn st bs = .ok st') :
    failFn st.wIdx = none ∧ st' = ⟨st.out ++ bs, st.wIdx + 1⟩ := by
  unfold writeB at h
  cases hf : failFn st.wIdx with
  | some e => rw [hf] at h; simp at h
  | none => rw [hf] at h; simp at h; exact ⟨rfl, h.symm⟩

/-- A failed write returns exactly the scripted error of this call. -/
theorem writeB_error (failFn : Nat → Option Nat) (st : OutState) (bs : List Nat)
    (e : Nat) (h : writeB failFn st bs = .error e) : failFn st.wIdx = some e := by
  unfold writeB at h
  cases hf : failFn st.wIdx with
  | some e' => rw [hf] at h; simp at h; rw [h]
  | none => rw [hf] at h; simp at h

/-- Unfolding equations for `readOnce`. -/
theorem readOnce_nil (space : Nat) : readOnce space [] = .ok ([], []) := rfl

theorem readOnce_err (space e : Nat) (rest : Script) :
    readOnce space (.error e :: rest) = .error e := rfl

theorem readOnce_chunk (space : Nat) (c : List Nat) (rest : Script) :
    readOnce space (.ok c :: rest) =
      if c.length ≤ space then .ok (c, rest)
      else .ok (c.take space, .ok (c.drop space) :: rest) := rfl

/-- A failing read call returns an error present in the script. -/
theorem readOnce_error (space : Nat) (s : Script) (e : Nat)
    (h : readOnce space s = .error e) : Except.error e ∈ s := by
  match s with
  | [] => rw [readOnce_nil] at h; simp at h
  | .error e' :: rest =>
    rw [readOnce_err, Except.error.injEq] at h
    rw [h]; exact List.mem_cons_self _ _
  | .ok c :: rest =>
    rw [readOnce_chunk] at h
    split at h <;> simp at h

/-- A successful read call never invents error entries: every error
in the remaining script was in the original script. -/
theorem readOnce_err_sub (space : Nat) (s : Script) (got : List Nat) (s' : Script)
    (h : readOnce space s = .ok (got, s')) :
    ∀ e, Except.error e ∈ s' → Except.error e ∈ s := by
  match s with
  | [] =>
    rw [readOnce_nil] at h
    simp only [Except.ok.injEq, Prod.mk.injEq] at h
    intro e he; rw [← h.2] at he; simp at he
  | .error e' :: rest => rw [readOnce_err] at h; simp at h
  | .ok c :: rest =>
    rw [readOnce_chunk] at h
    split at h <;> simp only [Except.ok.injEq, Prod.mk.injEq] at h <;>
      intro e he <;> rw [← h.2] at he
    · exact List.mem_cons_of_mem _ he
    · rcases List.mem_cons.mp he with h1 | h1
      · simp at h1
      · exact List.mem_cons_of_mem _ h1

/-- A failing `fill_buffer` loop returns an error from the script. -/
theorem fillAux_error : ∀ (fuel space : Nat) (s : Script) (e : Nat),
    fillAux fuel space s = .error e → Except.error e ∈ s := by
  intro fuel
  induction fuel with
  | zero => intro space s e h; simp [fillAux] at h
  | succ f ih =>
    intro space s e h
    unfold fillAux at h
    split at h
    · simp at h
    · split at h
      · next hro => simp only [Except.error.injEq] at h; rw [← h]; exact readOnce_error _ _ _ hro
      · next got s' hro =>
        split at h
        · simp at h
        · split at h
          · next hrec =>
            simp only [Except.error.injEq] at h
            rw [← h]
            exact readOnce_err_sub _ _ _ _ hro _ (ih _ _ _ hrec)
          · simp at h

/-- A successful `fill_buffer` loop never invents error entries. -/
theorem fillAux_err_sub : ∀ (fuel space : Nat) (s : Script) (b : List Nat) (s' : Script),
    fillAux fuel space s = .ok (b, s') →
    ∀ e, Except.error e ∈ s' → Except.error e ∈ s := by
  intro fuel
  induction fuel with
  | zero =>
    intro space s b s' h
    simp only [fillAux, Except.ok.injEq, Prod.mk.injEq] at h
    rw [h.2]; exact fun e he => he
  | succ f ih =>
    intro space s b s' h
    unfold fillAux at h
    split at h
    · simp only [Except.ok.injEq, Prod.mk.injEq] at h
      rw [h.2]; exact fun e he => he
    · split at h
      · simp at h
      · next got s1 hro =>
        split at h
        · simp only [Except.ok.injEq, Prod.mk.injEq] at h
          rw [h.2] at hro
          exact readOnce_err_sub _ _ _ _ hro
        · split at h
          · simp at h
          · next more s2 hrec =>
            simp only [Except.ok.injEq, Prod.mk.injEq] at h
            intro e he
            rw [← h.2] at he
            exact readOnce_err_sub _ _ _ _ hro _ (ih _ _ _ _ hrec _ he)

/-- `fill_buffer` failure comes from the script. -/
theorem fill_buffer_error (space : Nat) (s : Script) (e : Nat)
    (h : fill_buffer space s = .error e) : Except.error e ∈ s :=
  fillAux_error _ _ _ _ h

/-- `fill_buffer` success keeps the remaining errors a subset. -/
theorem fill_buffer_err_sub (space : Nat) (s : Script) (b : List Nat) (s' : Script)
    (h : fill_buffer space s = .ok (b, s')) :
    ∀ e, Except.error e ∈ s' → Except.error e ∈ s :=
  fillAux_err_sub _ _ _ _ _ h

/-- `fillAux` on an exhausted source reports end-of-stream. -/
theorem fillAux_nil (f sp : Nat) : fillAux (f + 1) sp ([] : Script) = .ok ([], []) := by
  unfold fillAux
  by_cases h : sp = 0
  · rw [if_pos h]
  · rw [if_neg h, readOnce_nil]
    rfl

/-- A write call against a never-failing sink. -/
theorem writeB_none (st : OutState) (bs : List Nat) :
    writeB (fun _ => none) st bs = .ok ⟨st.out ++ bs, st.wIdx + 1⟩ := rfl

/-- Closed form of `fill_buffer` over a plain byte-list source: it
obtains the first `n` offered bytes (retrying the partial first read)
and leaves the rest. -/
theorem fill_buffer_single (n : Nat) (data : List Nat) (hn : 0 < n) :
    fill_buffer n [Except.ok data] =
      .ok (data.take n, if n < data.length then [Except.ok (data.drop n)] else []) := by
  have hm : scriptMeasure [Except.ok data] = data.length + 1 := by
    simp [scriptMeasure]
  unfold fill_buffer
  rw [hm]
  unfold fillAux
  rw [if_neg (by omega : ¬ n = 0), readOnce_chunk]
  by_cases hc : data.length ≤ n
  · rw [if_pos hc]
    dsimp only
    by_cases hd : data = []
    · subst hd; simp
    · rw [if_neg (show ¬ (data.isEmpty = true) by simp [hd])]
      rw [fillAux_nil]
      dsimp only
      rw [List.take_of_length_le hc, if_neg (by omega : ¬ n < data.length)]
      simp
  · rw [if_neg hc]
    dsimp only
    have hne : ¬ ((data.take n).isEmpty = true) := by
      simp only [List.isEmpty_iff, List.take_eq_nil_iff]
      rintro (h | h)
      · omega
      · rw [h] at hc; simp at hc
    rw [if_neg hne]
    have hlt : (data.take n).length = n := by rw [List.length_take]; omega
    rw [hlt, Nat.sub_self]
    have hz : fillAux (data.length + 1) 0 [Except.ok (data.drop n)] =
        .ok ([], [Except.ok (data.drop n)]) := by
      unfold fillAux; rw [if_pos rfl]
    rw [hz]
    dsimp only
    rw [if_pos (by omega : n < data.length)]
    simp

/-- The loop stops, successfully and without a record, on an
exhausted source. -/
theorem sigLoop_nil (H : List Nat → List Nat) (failFn : Nat → Option Nat)
    (bl sl f : Nat) (st : OutState) :
    sigLoop H failFn bl sl (f + 1) [] st = ([], st, none) := by
  unfold sigLoop
  have hfb : fill_buffer bl ([] : Script) = .ok ([], []) := fillAux_nil _ _
  rw [hfb]
  rfl

/-- One iteration of the loop over a plain byte-list source with a
healthy sink: reads a block of up to `bl` bytes, appends its record
(4-byte weak digest, then the first `sl` strong-hash bytes), and
either stops (short block) or continues on the remaining bytes. -/
theorem sigLoop_step (H : List Nat → List Nat) (bl sl fuel : Nat) (d : List Nat)
    (st : OutState) (hbl : 0 < bl) (hsl : sl ≤ 32) (hd : d ≠ []) :
    sigLoop H (fun _ => none) bl sl (fuel + 1) [Except.ok d] st =
      if d.length < bl then
        ([], ⟨st.out ++ u32be (Window.new.update d).digest ++ (H d).take sl,
          st.wIdx + 1 + 1⟩, none)
      else
        sigLoop H (fun _ => none) bl sl fuel
          (if bl < d.length then [Except.ok (d.drop bl)] else [])
          ⟨st.out ++ u32be (Window.new.update (d.take bl)).digest ++
            (H (d.take bl)).take sl, st.wIdx + 1 + 1⟩ := by
  unfold sigLoop
  rw [fill_buffer_single bl d hbl]
  dsimp only
  have hne : ¬ ((d.take bl).isEmpty = true) := by
    simp only [List.isEmpty_iff, List.take_eq_nil_iff]
    rintro (h | h)
    · omega
    · exact hd h
  rw [if_neg hne, writeB_none]
  dsimp only
  rw [if_neg (by omega : ¬ 32 < sl), writeB_none]
  dsimp only
  rw [List.length_take]
  by_cases hlt : d.length < bl
  · rw [if_pos (by omega : min bl d.length < bl), if_pos hlt,
      if_neg (by omega : ¬ bl < d.length),
      List.take_of_length_le (by omega : d.length ≤ bl)]
  · rw [if_neg (by omega : ¬ min bl d.length < bl), if_neg hlt]
    apply sigLoop.eq_def

/-- C7: chunking record counts.  For every `block_len > 0` and
`strong_len ≤ 32` (with the strong hash honouring its 32-byte output
contract): an input of exactly `block_len` bytes produces exactly one
record (the final zero-byte read terminates the loop without an empty
record), and an input of `2 * block_len + r` bytes with
`0 < r < block_len` produces exactly three records, in input-stream
order, each record being `4 + strong_len` bytes. -/
theorem C7_chunking_record_counts (H : List Nat → List Nat) (magic bl sl r : Nat)
    (data : List Nat) (hbl : 0 < bl) (hsl : sl ≤ 32) (hH : ∀ b, (H b).length = 32) :
    (data.length = bl →
      generate_signature H (fun _ => none) ⟨magic, bl, sl⟩ [Except.ok data] =
        ([], ⟨u32be magic ++ u32be bl ++ u32be sl ++
          u32be (Window.new.update data).digest ++ (H data).take sl, 5⟩, none) ∧
      (u32be magic ++ u32be bl ++ u32be sl ++
        u32be (Window.new.update data).digest ++ (H data).take sl).length =
        12 + 1 * (4 + sl)) ∧
    (data.length = 2 * bl + r → 0 < r → r < bl →
      generate_signature H (fun _ => none) ⟨magic, bl, sl⟩ [Except.ok data] =
        ([], ⟨u32be magic ++ u32be bl ++ u32be sl ++
          u32be (Window.new.update (data.take bl)).digest ++
          (H (data.take bl)).take sl ++
          u32be (Window.new.update ((data.drop bl).take bl)).digest ++
          (H ((data.drop bl).take bl)).take sl ++
          u32be (Window.new.update ((data.drop bl).drop bl)).digest ++
          (H ((data.drop bl).drop bl)).take sl, 9⟩, none) ∧
      (u32be magic ++ u32be bl ++ u32be sl ++
        u32be (Window.new.update (data.take bl)).digest ++
        (H (data.take bl)).take sl ++
        u32be (Window.new.update ((data.drop bl).take bl)).digest ++
        (H ((data.drop bl).take bl)).take sl ++
        u32be (Window.new.update ((data.drop bl).drop bl)).digest ++
        (H ((data.drop bl).drop bl)).take sl).length = 12 + 3 * (4 + sl)) := by
  have hm : scriptMeasure [Except.ok data] = data.length + 1 := by
    simp [scriptMeasure]
  have htake : ∀ b, ((H b).take sl).length = sl := by
    intro b; rw [List.length_take, hH b]; omega
  have hgen : generate_signature H (fun _ => none) ⟨magic, bl, sl⟩ [Except.ok data] =
      sigLoop H (fun _ => none) bl sl (data.length + 1 + 1) [Except.ok data]
        ⟨u32be magic ++ u32be bl ++ u32be sl, 3⟩ := by
    unfold generate_signature
    dsimp only
    rw [writeB_none]
    dsimp only
    rw [writeB_none]
    dsimp only
    rw [writeB_none]
    dsimp only
    rw [hm]
    simp only [List.nil_append]
  constructor
  · intro hlen
    have hd : data ≠ [] := by
      intro h; rw [h] at hlen; simp at hlen; omega
    constructor
    · rw [hgen]
      rw [sigLoop_step H bl sl (data.length + 1) data _ hbl hsl hd]
      rw [if_neg (by omega : ¬ data.length < bl)]
      rw [if_neg (by omega : ¬ bl < data.length)]
      rw [List.take_of_length_le (by omega : data.length ≤ bl)]
      rw [sigLoop_nil]
    · simp only [List.length_append, htake, u32be, List.length_cons, List.length_nil]
      omega
  · intro hlen hr hrb
    have hd : data ≠ [] := by
      intro h; rw [h] at hlen; simp at hlen; omega
    have hd1l : (data.drop bl).length = bl + r := by
      rw [List.length_drop]; omega
    have hd1 : data.drop bl ≠ [] := by
      intro h; rw [h] at hd1l; simp at hd1l; omega
    have hd2l : ((data.drop bl).drop bl).length = r := by
      rw [List.length_drop, hd1l]; omega
    have hd2 : (data.drop bl).drop bl ≠ [] := by
      intro h; rw [h] at hd2l; simp at hd2l; omega
    constructor
    · rw [hgen]
      rw [sigLoop_step H bl sl (data.length + 1) data _ hbl hsl hd]
      rw [if_neg (by omega : ¬ data.length < bl), if_pos (by omega : bl < data.length)]
      rw [sigLoop_step H bl sl data.length (data.drop bl) _ hbl hsl hd1]
      rw [if_neg (by omega : ¬ (data.drop bl).length < bl),
        if_pos (by omega : bl < (data.drop bl).length)]
      rw [show data.length = data.length - 1 + 1 from by omega]
      rw [sigLoop_step H bl sl (data.length - 1) ((data.drop bl).drop bl) _ hbl hsl hd2]
      rw [if_pos (by omega : ((data.drop bl).drop bl).length < bl)]
    · simp only [List.length_append, htake, u32be, List.length_cons, List.length_nil]
      omega

/-- Witness for C7: with `block_len = 2`, `strong_len = 1`, a 2-byte
input produces one record and a 5-byte input produces three records,
with a constant 32-byte strong hash. -/
theorem C7_chunking_record_counts_witness :
    generate_signature (fun _ => List.replicate 32 9) (fun _ => none) ⟨0, 2, 1⟩
        [Except.ok [5, 6]] =
      ([], ⟨u32be 0 ++ u32be 2 ++ u32be 1 ++
        u32be (Window.new.update [5, 6]).digest ++
        (List.replicate 32 9).take 1, 5⟩, none) ∧
    generate_signature (fun _ => List.replicate 32 9) (fun _ => none) ⟨0, 2, 1⟩
        [Except.ok [1, 2, 3, 4, 7]] =
      ([], ⟨u32be 0 ++ u32be 2 ++ u32be 1 ++
        u32be (Window.new.update (([1, 2, 3, 4, 7] : List Nat).take 2)).digest ++
        (List.replicate 32 9).take 1 ++
        u32be (Window.new.update ((([1, 2, 3, 4, 7] : List Nat).drop 2).take 2)).digest ++
        (List.replicate 32 9).take 1 ++
        u32be (Window.new.update ((([1, 2, 3, 4, 7] : List Nat).drop 2).drop 2)).digest ++
        (List.replicate 32 9).take 1, 9⟩, none) :=
  ⟨((C7_chunking_record_counts (fun _ => List.replicate 32 9) 0 2 1 1 [5, 6]
      (by decide) (by decide) (fun b => by simp)).1 rfl).1,
   ((C7_chunking_record_counts (fun _ => List.replicate 32 9) 0 2 1 1 [1, 2, 3, 4, 7]
      (by decide) (by decide) (fun b => by simp)).2 rfl (by decide) (by decide)).1⟩

/-- A successful `flush_buf` moves the buffered bytes to the sink:
the accepted bytes (sink content followed by buffer content) are
unchanged and the buffer ends empty. -/
theorem flushBuf_ok (failFn : Nat → Option Nat) (b b' : BufState)
    (h : flushBuf failFn b = .ok b') :
    b'.sink.out ++ b'.buf = b.sink.out ++ b.buf ∧ b'.buf = [] := by
  unfold flushBuf at h
  split at h
  · next hemp =>
    simp only [Except.ok.injEq] at h
    subst h
    exact ⟨rfl, List.isEmpty_iff.mp hemp⟩
  · split at h
    · simp at h
    · next st' hw =>
      simp only [Except.ok.injEq] at h
      subst h
      obtain ⟨-, hst⟩ := writeB_ok _ _ _ _ hw
      constructor
      · show st'.out ++ [] = b.sink.out ++ b.buf
        rw [hst, List.append_nil]
      · rfl

/-- A successful `flush_buf` only performs successful writes. -/
theorem flushBuf_writes_ok (failFn : Nat → Option Nat) (b b' : BufState)
    (h : flushBuf failFn b = .ok b')
    (hpre : ∀ j, j < b.sink.wIdx → failFn j = none) :
    ∀ j, j < b'.sink.wIdx → failFn j = none := by
  unfold flushBuf at h
  split at h
  · simp only [Except.ok.injEq] at h
    subst h
    exact hpre
  · split at h
    · simp at h
    · next st' hw =>
      simp only [Except.ok.injEq] at h
      subst h
      obtain ⟨hf, hst⟩ := writeB_ok _ _ _ _ hw
      intro j hj
      have hj' : j < st'.wIdx := hj
      have hx : st'.wIdx = b.sink.wIdx + 1 := by rw [hst]
      rw [hx] at hj'
      rcases Nat.lt_or_ge j b.sink.wIdx with hlt | hge
      · exact hpre j hlt
      · have hje : j = b.sink.wIdx := by omega
        rw [hje]; exact hf

/-- A failed `flush_buf` surfaces exactly a scripted write error. -/
theorem flushBuf_error (failFn : Nat → Option Nat) (b : BufState) (e : Nat)
    (h : flushBuf failFn b = .error e) : ∃ j, failFn j = some e := by
  unfold flushBuf at h
  split at h
  · simp at h
  · split at h
    · next e' hw =>
      simp only [Except.error.injEq] at h
      subst h
      exact ⟨b.sink.wIdx, writeB_error _ _ _ _ hw⟩
    · simp at h

/-- The drop-time flush only performs successful writes (a failed
final flush changes nothing and its error is discarded). -/
theorem dropFlush_writes_ok (failFn : Nat → Option Nat) (b : BufState)
    (hpre : ∀ j, j < b.sink.wIdx → failFn j = none) :
    ∀ j, j < (dropFlush failFn b).wIdx → failFn j = none := by
  unfold dropFlush
  split
  · exact hpre
  · next b' hfl => exact flushBuf_writes_ok _ _ _ hfl hpre

/-- After the drop-time flush the sink holds a prefix of the bytes
the writer had accepted: everything, or — when the discarded final
flush failed — everything minus the still-buffered tail. -/
theorem dropFlush_out (failFn : Nat → Option Nat) (b : BufState) :
    ∃ rest, (dropFlush failFn b).out ++ rest = b.sink.out ++ b.buf := by
  unfold dropFlush
  split
  · exact ⟨b.buf, rfl⟩
  · next b' hfl =>
    obtain ⟨hacc, hbuf⟩ := flushBuf_ok _ _ _ hfl
    rw [hbuf, List.append_nil] at hacc
    exact ⟨[], by rw [List.append_nil]; exact hacc⟩

/-- A non-failing overflow check preserves the accepted bytes, and
either leaves the buffer empty (it flushed) or changes nothing and
certifies the data fits. -/
theorem bufFlushIfNeeded_ok (failFn : Nat → Option Nat) (b b1 : BufState) (n : Nat)
    (h : bufFlushIfNeeded failFn b n = (b1, none)) :
    b1.sink.out ++ b1.buf = b.sink.out ++ b.buf ∧
    (b1.buf = [] ∨ (b1 = b ∧ b.buf.length + n ≤ BUF_CAPACITY)) := by
  unfold bufFlushIfNeeded at h
  split at h
  · split at h
    · simp at h
    · next b' hfl =>
      simp only [Prod.mk.injEq] at h
      obtain ⟨hb, -⟩ := h
      subst hb
      obtain ⟨hacc, hbuf⟩ := flushBuf_ok _ _ _ hfl
      exact ⟨hacc, Or.inl hbuf⟩
  · next hnot =>
    simp only [Prod.mk.injEq] at h
    obtain ⟨hb, -⟩ := h
    subst hb
    exact ⟨rfl, Or.inr ⟨rfl, by omega⟩⟩

/-- A non-failing overflow check only performs successful writes. -/
theorem bufFlushIfNeeded_writes_ok (failFn : Nat → Option Nat) (b b1 : BufState)
    (n : Nat) (h : bufFlushIfNeeded failFn b n = (b1, none))
    (hpre : ∀ j, j < b.sink.wIdx → failFn j = none) :
    ∀ j, j < b1.sink.wIdx → failFn j = none := by
  unfold bufFlushIfNeeded at h
  split at h
  · split at h
    · simp at h
    · next b' hfl =>
      simp only [Prod.mk.injEq] at h
      obtain ⟨hb, -⟩ := h
      subst hb
      exact flushBuf_writes_ok _ _ _ hfl hpre
  · simp only [Prod.mk.injEq] at h
    obtain ⟨hb, -⟩ := h
    subst hb
    exact hpre

/-- A failing overflow check surfaces exactly a scripted write
error. -/
theorem bufFlushIfNeeded_error (failFn : Nat → Option Nat) (b b1 : BufState)
    (n e : Nat) (h : bufFlushIfNeeded failFn b n = (b1, some e)) :
    ∃ j, failFn j = some e := by
  unfold bufFlushIfNeeded at h
  split at h
  · split at h
    · next e' hfl =>
      simp only [Prod.mk.injEq, Option.some.injEq] at h
      obtain ⟨-, he⟩ := h
      subst he
      exact flushBuf_error _ _ _ hfl
    · simp at h
  · simp at h

/-- A successful `BufWriter::write` accepts exactly the given bytes:
the accepted bytes grow by `data`, in order. -/
theorem bufWrite_acc (failFn : Nat → Option Nat) (b b' : BufState) (data : List Nat)
    (h : bufWrite failFn b data = (b', none)) :
    b'.sink.out ++ b'.buf = b.sink.out ++ b.buf ++ data := by
  unfold bufWrite at h
  split at h
  · simp at h
  · next b1 hfl =>
    obtain ⟨hacc, hshape⟩ := bufFlushIfNeeded_ok _ _ _ _ hfl
    split at h
    · next hcap =>
      split at h
      · simp at h
      · next st' hw =>
        simp only [Prod.mk.injEq] at h
        obtain ⟨hb, -⟩ := h
        subst hb
        obtain ⟨-, hst⟩ := writeB_ok _ _ _ _ hw
        have hb1 : b1.buf = [] := by
          rcases hshape with h1 | ⟨h1, h2⟩
          · exact h1
          · subst h1
            exact List.length_eq_zero.mp (by omega)
        show st'.out ++ b1.buf = b.sink.out ++ b.buf ++ data
        rw [hb1, List.append_nil] at hacc
        rw [hst, hb1, List.append_nil, hacc]
    · simp only [Prod.mk.injEq] at h
      obtain ⟨hb, -⟩ := h
      subst hb
      show b1.sink.out ++ (b1.buf ++ data) = b.sink.out ++ b.buf ++ data
      rw [← List.append_assoc, hacc]

/-- A successful `BufWriter::write` only performs successful sink
writes. -/
theorem bufWrite_writes_ok (failFn : Nat → Option Nat) (b b' : BufState)
    (data : List Nat) (h : bufWrite failFn b data = (b', none))
    (hpre : ∀ j, j < b.sink.wIdx → failFn j = none) :
    ∀ j, j < b'.sink.wIdx → failFn j = none := by
  unfold bufWrite at h
  split at h
  · simp at h
  · next b1 hfl =>
    have hpre1 := bufFlushIfNeeded_writes_ok _ _ _ _ hfl hpre
    split at h
    · split at h
      · simp at h
      · next st' hw =>
        simp only [Prod.mk.injEq] at h
        obtain ⟨hb, -⟩ := h
        subst hb
        obtain ⟨hf, hst⟩ := writeB_ok _ _ _ _ hw
        intro j hj
        have hj' : j < st'.wIdx := hj
        have hx : st'.wIdx = b1.sink.wIdx + 1 := by rw [hst]
        rw [hx] at hj'
        rcases Nat.lt_or_ge j b1.sink.wIdx with hlt | hge
        · exact hpre1 j hlt
        · have hje : j = b1.sink.wIdx := by omega
          rw [hje]; exact hf
    · simp only [Prod.mk.injEq] at h
      obtain ⟨hb, -⟩ := h
      subst hb
      exact hpre1

/-- A `BufWriter::write` that surfaces an error surfaces exactly a
scripted write error. -/
theorem bufWrite_error (failFn : Nat → Option Nat) (b b' : BufState)
    (data : List Nat) (e : Nat) (h : bufWrite failFn b data = (b', some e)) :
    ∃ j, failFn j = some e := by
  unfold bufWrite at h
  split at h
  · next b1 e' hfl =>
    simp only [Prod.mk.injEq, Option.some.injEq] at h
    obtain ⟨-, he⟩ := h
    subst he
    exact bufFlushIfNeeded_error _ _ _ _ _ hfl
  · next b1 hfl =>
    split at h
    · split at h
      · next e' hw =>
        simp only [Prod.mk.injEq, Option.some.injEq] at h
        obtain ⟨-, he⟩ := h
        subst he
        exact ⟨b1.sink.wIdx, writeB_error _ _ _ _ hw⟩
      · simp at h
    · simp at h

/-- A successful buffered loop run only performs successful sink
writes, and the accepted bytes grow by record bytes only. -/
theorem sigLoopBuf_ok (H : List Nat → List Nat) (failFn : Nat → Option Nat)
    (bl sl : Nat) : ∀ (fuel : Nat) (s : Script) (b : BufState) (s'' : Script)
    (b'' : BufState),
    sigLoopBuf H failFn bl sl fuel s b = (s'', b'', none) →
    (∀ j, j < b.sink.wIdx → failFn j = none) →
    (∀ j, j < b''.sink.wIdx → failFn j = none) ∧
    ∃ recs, b''.sink.out ++ b''.buf = b.sink.out ++ b.buf ++ recs := by
  intro fuel
  induction fuel with
  | zero =>
    intro s b s'' b'' h hpre
    simp only [sigLoopBuf, Prod.mk.injEq, and_true] at h
    obtain ⟨-, hb⟩ := h
    subst hb
    exact ⟨hpre, ⟨[], by simp⟩⟩
  | succ f ih =>
    intro s b s'' b'' h hpre
    unfold sigLoopBuf at h
    split at h
    · simp at h
    · next blk s' hfb =>
      split at h
      · simp only [Prod.mk.injEq, and_true] at h
        obtain ⟨-, hb⟩ := h
        subst hb
        exact ⟨hpre, ⟨[], by simp⟩⟩
      · split at h
        · simp at h
        · next b1 hw1 =>
          split at h
          · simp at h
          · split at h
            · simp at h
            · next b2 hw2 =>
              have hpre1 := bufWrite_writes_ok _ _ _ _ hw1 hpre
              have hpre2 := bufWrite_writes_ok _ _ _ _ hw2 hpre1
              have hacc1 := bufWrite_acc _ _ _ _ hw1
              have hacc2 := bufWrite_acc _ _ _ _ hw2
              split at h
              · simp only [Prod.mk.injEq, and_true] at h
                obtain ⟨-, hb⟩ := h
                subst hb
                refine ⟨hpre2, ⟨u32be (Window.new.update blk).digest ++
                  (H blk).take sl, ?_⟩⟩
                rw [hacc2, hacc1]
                simp [List.append_assoc]
              · obtain ⟨hinv, recs, hrecs⟩ := ih s' b2 s'' b'' h hpre2
                refine ⟨hinv, ⟨u32be (Window.new.update blk).digest ++
                  (H blk).take sl ++ recs, ?_⟩⟩
                rw [hrecs, hacc2, hacc1]
                simp [List.append_assoc]

/-- Any I/O error reported by the buffered loop is literally an
error of the input script or a scripted sink-write failure. -/
theorem sigLoopBuf_error_src (H : List Nat → List Nat) (failFn : Nat → Option Nat)
    (bl sl : Nat) : ∀ (fuel : Nat) (s : Script) (b : BufState) (s'' : Script)
    (b'' : BufState) (e : Nat),
    sigLoopBuf H failFn bl sl fuel s b = (s'', b'', some (GenErr.ioErr e)) →
    Except.error e ∈ s ∨ ∃ j, failFn j = some e := by
  intro fuel
  induction fuel with
  | zero => intro s b s'' b'' e h; simp [sigLoopBuf] at h
  | succ f ih =>
    intro s b s'' b'' e h
    unfold sigLoopBuf at h
    split at h
    · next e' hfb =>
      simp only [Prod.mk.injEq, Option.some.injEq, GenErr.ioErr.injEq] at h
      obtain ⟨-, -, he⟩ := h
      subst he
      exact Or.inl (fill_buffer_error _ _ _ hfb)
    · next blk s' hfb =>
      split at h
      · simp at h
      · split at h
        · next b1 e' hw1 =>
          simp only [Prod.mk.injEq, Option.some.injEq, GenErr.ioErr.injEq] at h
          obtain ⟨-, -, he⟩ := h
          subst he
          exact Or.inr (bufWrite_error _ _ _ _ _ hw1)
        · next b1 hw1 =>
          split at h
          · simp at h
          · split at h
            · next b2 e' hw2 =>
              simp only [Prod.mk.injEq, Option.some.injEq, GenErr.ioErr.injEq] at h
              obtain ⟨-, -, he⟩ := h
              subst he
              exact Or.inr (bufWrite_error _ _ _ _ _ hw2)
            · next b2 hw2 =>
              split at h
              · simp at h
              · rcases ih s' b2 s'' b'' e h with hmem | hex
                · exact Or.inl (fill_buffer_err_sub _ _ _ _ hfb e hmem)
                · exact Or.inr hex

/-- C8: the claim is false of the code.  `generate_signature` wraps
the caller's sink in a `BufWriter` (mksum.rs line 69) and returns
without flushing it; the drop-time flush discards its own error.
Evaluated with a sink whose every write fails (error code 7), default
options and empty input: the 12 header bytes never leave the buffer
during the run, the final flush fails invisibly, and the call returns
success with not a single byte successfully written to the output
stream — an underlying write failed during the call, yet the result
is Ok and the output holds none of the header bytes. -/
theorem C8_counterexample :
    generate_signature_buffered (fun _ => []) (fun _ => some 7)
      SignatureOptions.default [] = ([], ⟨[], 0⟩, none) := rfl

/-- C8 (amended): over the buffered writer, any reported I/O error
is, unmodified, an error scripted for a read or for an underlying
write, and a success result implies that every write call that
reached the output stream succeeded and that the stream holds a
prefix of the header followed by the record bytes.  Success does NOT
imply that every byte was written: the tail still buffered at return
is flushed only by `BufWriter`'s drop, whose error is discarded (see
the counterexample). -/
theorem C8_buffered_error_propagation (H : List Nat → List Nat)
    (failFn : Nat → Option Nat) (options : SignatureOptions) (s : Script) :
    (∀ st', (generate_signature_buffered H failFn options s).2 = (st', none) →
      (∀ j, j < st'.wIdx → failFn j = none) ∧
      ∃ recs rest, st'.out ++ rest = u32be options.magic ++ u32be options.block_len ++
        u32be options.strong_len ++ recs) ∧
    (∀ st' e, (generate_signature_buffered H failFn options s).2 =
        (st', some (GenErr.ioErr e)) →
      Except.error e ∈ s ∨ ∃ j, failFn j = some e) := by
  constructor
  · intro st' h
    unfold generate_signature_buffered at h
    split at h
    · simp at h
    · next b1 hw1 =>
      split at h
      · simp at h
      · next b2 hw2 =>
        split at h
        · simp at h
        · next b3 hw3 =>
          split at h
          next s'' b'' err hloop =>
          simp only [Prod.mk.injEq] at h
          obtain ⟨hst, herr⟩ := h
          subst herr
          have hpre0 : ∀ j, j < (BufState.mk [] ⟨[], 0⟩).sink.wIdx →
              failFn j = none := by
            intro j hj
            have hj0 : j < 0 := hj
            omega
          have hpre1 := bufWrite_writes_ok _ _ _ _ hw1 hpre0
          have hpre2 := bufWrite_writes_ok _ _ _ _ hw2 hpre1
          have hpre3 := bufWrite_writes_ok _ _ _ _ hw3 hpre2
          have hacc1 := bufWrite_acc _ _ _ _ hw1
          have hacc2 := bufWrite_acc _ _ _ _ hw2
          have hacc3 := bufWrite_acc _ _ _ _ hw3
          obtain ⟨hinv, recs, hrecs⟩ := sigLoopBuf_ok H failFn options.block_len
            options.strong_len (scriptMeasure s + 1) s b3 s'' b'' hloop hpre3
          constructor
          · intro j hj
            rw [← hst] at hj
            exact dropFlush_writes_ok failFn b'' hinv j hj
          · obtain ⟨rest, hdrop⟩ := dropFlush_out failFn b''
            refine ⟨recs, rest, ?_⟩
            rw [← hst, hdrop, hrecs, hacc3, hacc2, hacc1]
            simp [List.append_assoc]
  · intro st' e h
    unfold generate_signature_buffered at h
    split at h
    · next b1 e' hw1 =>
      simp only [Prod.mk.injEq, Option.some.injEq, GenErr.ioErr.injEq] at h
      obtain ⟨-, he⟩ := h
      subst he
      exact Or.inr (bufWrite_error _ _ _ _ _ hw1)
    · next b1 hw1 =>
      split at h
      · next b2 e' hw2 =>
        simp only [Prod.mk.injEq, Option.some.injEq, GenErr.ioErr.injEq] at h
        obtain ⟨-, he⟩ := h
        subst he
        exact Or.inr (bufWrite_error _ _ _ _ _ hw2)
      · next b2 hw2 =>
        split at h
        · next b3 e' hw3 =>
          simp only [Prod.mk.injEq, Option.some.injEq, GenErr.ioErr.injEq] at h
          obtain ⟨-, he⟩ := h
          subst he
          exact Or.inr (bufWrite_error _ _ _ _ _ hw3)
        · next b3 hw3 =>
          split at h
          next s'' b'' err hloop =>
          simp only [Prod.mk.injEq] at h
          obtain ⟨-, herr⟩ := h
          subst herr
          exact sigLoopBuf_error_src H failFn options.block_len options.strong_len
            (scriptMeasure s + 1) s b3 s'' b'' e hloop

/-- Witness for C8 (amended): a concrete buffered run whose input
script errors with code 5 returns exactly code 5 (the right disjunct
is impossible since the sink never fails; the header reaches the sink
through the drop-time flush on the error path). -/
theorem C8_buffered_error_propagation_witness :
    Except.error 5 ∈ ([Except.error 5] : Script) ∨
      ∃ _j : Nat, (none : Option Nat) = some 5 :=
  (C8_buffered_error_propagation (fun _ => []) (fun _ => none)
    SignatureOptions.default [Except.error 5]).2
    ⟨[0x72, 0x73, 0x01, 0x37, 0x00, 0x00, 0x08, 0x00, 0x00, 0x00, 0x00, 0x20], 1⟩ 5 rfl
